import Mathlib

/-!
Verification of the `CPP_INTRIN` portable SIMD emulation layer
(`intrinsics.hpp`).  Fixed-width lane sequences are embedded as functions
`Nat → Int`; a lane value is the mathematical integer held by the C++
`int16_t` / `int64_t` / `int8_t` lane.  Conversions that C++ performs by
integral conversion (truncation to a narrower signed type) are made explicit
through `wrap16` / `wrap8`, and unsigned 128-bit state is embedded as `Nat`
reduced modulo `2 ^ 128`.  Each operation below is translated from the
portable (no-intrinsics) code path of the corresponding function in the
source header; the run-time precondition `assert(a != b)` (a `std::array`
content comparison) is embedded by returning `none` when the two input
sequences agree on every lane.
-/

namespace CPPIntrin

/-- Truncation of an integer to the signed 16-bit range, i.e. the value of
`static_cast<int16_t>(x)` under two's complement: the unique representative
of `x` modulo `2 ^ 16` inside `[-32768, 32768)`. -/
def wrap16 (x : Int) : Int := (x + 32768) % 65536 - 32768

/-- Truncation of an integer to the signed 8-bit range, i.e. the value of
`static_cast<int8_t>(x)` under two's complement. -/
def wrap8 (x : Int) : Int := (x + 128) % 256 - 128

/-- All sixteen lanes hold values representable by `int16_t`. -/
abbrev In16 (a : Nat → Int) : Prop := ∀ i, i < 16 → -32768 ≤ a i ∧ a i < 32768

/-- All thirty-two lanes hold values representable by `int8_t`. -/
abbrev In8 (a : Nat → Int) : Prop := ∀ i, i < 32 → -128 ≤ a i ∧ a i < 128

/-- Content equality of the first `n` lanes of two sequences: the embedding
of the `std::array` `operator==` used by `assert(a != b)`, which compares
the stored elements (never object addresses). -/
def eqUpTo (a b : Nat → Int) : Nat → Bool
  | 0 => true
  | n + 1 => (a n == b n) && eqUpTo a b n

/-- `e_sign`, the branchless signum helper of the source:
`(int16_t(0) < value) - (value < int16_t(0))`. -/
def e_sign (value : Int) : Int :=
  (if 0 < value then 1 else 0) - (if value < 0 then 1 else 0)

/-- `m256_hadd_epi16`, portable path: for each 8-lane block at offset
`i ∈ {0, 8}` the loop stores `c[i+j] = a[i+2j] + a[i+2j+1]` for `j < 4` and
`c[i+4+j] = b[i+2j] + b[i+2j+1]` for `j < 4`, each sum truncated to
`int16_t` on assignment. -/
def m256_hadd_epi16 (a b : Nat → Int) : Nat → Int := fun k =>
  let i := 8 * (k / 8)
  let j := k % 8
  if j < 4 then wrap16 (a (i + 2 * j) + a (i + 2 * j + 1))
  else wrap16 (b (i + 2 * (j - 4)) + b (i + 2 * (j - 4) + 1))

/-- `m256_or_epi64`: asserts `a != b` (a `std::array` content comparison),
then `c[i] = a[i] | b[i]` for `i < 4`. -/
def m256_or_epi64 (a b : Nat → Int) : Option (Nat → Int) :=
  if eqUpTo a b 4 then none
  else some (fun i => Int.lor (a i) (b i))

/-- `m256_and_epi64`: asserts `a != b`, then `c[i] = a[i] & b[i]` for
`i < 4`. -/
def m256_and_epi64 (a b : Nat → Int) : Option (Nat → Int) :=
  if eqUpTo a b 4 then none
  else some (fun i => Int.land (a i) (b i))

/-- `m256_cmpgt_epi16`, portable path: asserts `a != b`, then
`c[i] = (a[i] > b[i]) * 0xFFFF` truncated to `int16_t`. -/
def m256_cmpgt_epi16 (a b : Nat → Int) : Option (Nat → Int) :=
  if eqUpTo a b 16 then none
  else some (fun i => wrap16 ((if b i < a i then 1 else 0) * 0xFFFF))

/-- `m256_shuffle_epi8`, portable path: asserts `a != b`; the loop body for
`i < 16` computes `flag = b[i] & 0x80`, `pos = b[i] & 0x0F` and stores
`c[i] = int16_t(~flag) * a[pos]`, and symmetrically for the upper half with
`c[i+16] = int16_t(~flag2) * a[pos2 + 16]`.  The `int8_t` control byte is
promoted (sign-extended) before being masked with byte-sized masks, so the
masking reads exactly its stored 8 bits `(b j % 256)`.  `flag` is a C
`unsigned` (32 bits), so `~flag` is `4294967295 - flag`, and the `int16_t`
cast of it is `wrap16`; the store into the `int8_t` lane is `wrap8`. -/
def m256_shuffle_epi8 (a b : Nat → Int) : Option (Nat → Int) :=
  if eqUpTo a b 32 then none
  else some (fun j =>
    let flag := (b j % 256).toNat &&& 0x80
    let pos := (b j % 256).toNat &&& 0x0F
    let mult := wrap16 (4294967295 - (flag : Int))
    if j < 16 then wrap8 (mult * a pos) else wrap8 (mult * a (pos + 16)))

/-- `m256_add_epi16`: `c[i] = a[i] + b[i]` truncated to `int16_t`. -/
def m256_add_epi16 (a b : Nat → Int) : Nat → Int := fun i => wrap16 (a i + b i)

/-- `m256_sub_epi16`: `c[i] = a[i] - b[i]` truncated to `int16_t`. -/
def m256_sub_epi16 (a b : Nat → Int) : Nat → Int := fun i => wrap16 (a i - b i)

/-- `m256_sign_epi16`, portable path: asserts `a != b`, then
`c[i] = a[i] * e_sign(b[i])` truncated to `int16_t`. -/
def m256_sign_epi16 (a b : Nat → Int) : Option (Nat → Int) :=
  if eqUpTo a b 16 then none
  else some (fun i => wrap16 (a i * e_sign (b i)))

/-- The low byte of the selector after the C integral promotion: `imm8` is an
`int8_t`, promoted (with sign extension) to `int` before being masked with
byte-sized masks, so only its low 8 bits — `imm8 mod 256` — are ever read. -/
def selByte (imm8 : Int) : Nat := (imm8 % 256).toNat

/-- `m256_permute4x64_epi64`, portable path: the four 2-bit fields of `imm8`
are isolated with the `BitPatterns` pair masks and shifts, and
`b[0] = a[zero]`, `b[1] = a[first]`, `b[2] = a[second]`, `b[3] = a[third]`. -/
def m256_permute4x64_epi64 (imm8 : Int) (a : Nat → Int) : Nat → Int :=
  let m := selByte imm8
  let zeroF := (m &&& 0x03) >>> 0
  let first := (m &&& 0x0C) >>> 2
  let second := (m &&& 0x30) >>> 4
  let third := (m &&& 0xC0) >>> 6
  fun k =>
    if k = 0 then a zeroF
    else if k = 1 then a first
    else if k = 2 then a second
    else if k = 3 then a third
    else 0

/-- `m256_permute4x64_epi16`, portable path: the same four 2-bit fields, each
multiplied by 4 to address a stride of four 16-bit lanes; the sixteen
assignments `b[4k+t] = a[field_k + t]` are the four blocks below. -/
def m256_permute4x64_epi16 (imm8 : Int) (a : Nat → Int) : Nat → Int :=
  let m := selByte imm8
  let zeroF := 4 * ((m &&& 0x03) >>> 0)
  let first := 4 * ((m &&& 0x0C) >>> 2)
  let second := 4 * ((m &&& 0x30) >>> 4)
  let third := 4 * ((m &&& 0xC0) >>> 6)
  fun k =>
    if k < 4 then a (zeroF + k)
    else if k < 8 then a (first + (k - 4))
    else if k < 12 then a (second + (k - 8))
    else if k < 16 then a (third + (k - 12))
    else 0

/-- `m256_srli_epi16`:
`b[i] = static_cast<int16_t>(static_cast<uint16_t>(a[i]) >> imm8)`.
The `uint16_t` cast is reduction modulo `2 ^ 16`, the shift happens on the
promoted non-negative value, and the result is truncated back to
`int16_t`. -/
def m256_srli_epi16 (imm8 : Nat) (a : Nat → Int) : Nat → Int :=
  fun i => wrap16 (Int.ofNat ((a i % 65536).toNat >>> imm8))

/-- `m256_abs_epi16`, portable path:
`signed_extend = a[i] >> 15` (arithmetic shift of the promoted value, stored
into an `int16_t`), then `b[i] = (a[i] ^ signed_extend) - signed_extend`
truncated to `int16_t`. -/
def m256_abs_epi16 (a : Nat → Int) : Nat → Int := fun i =>
  let signed_extend := wrap16 (Int.shiftRight (a i) 15)
  wrap16 (Int.xor (a i) signed_extend - signed_extend)

/-- The Lehmer multiplier `0xda942042e4dd85b5` of `get_randomness`. -/
def lehmer_k : Nat := 0xda942042e4dd85b5

/-- `get_randomness`, portable path: both `__uint128_t` accumulators are
multiplied by the Lehmer constant (modulo `2 ^ 128`), and the result is
`(gstate_1 << 64) | (gstate_2 >> 64)` on the updated states.  Returns the
output value together with the two updated accumulators. -/
def get_randomness (gstate_1 gstate_2 : Nat) : Nat × Nat × Nat :=
  let g1 := gstate_1 * lehmer_k % 2 ^ 128
  let g2 := gstate_2 * lehmer_k % 2 ^ 128
  let out := (g1 <<< 64) % 2 ^ 128 ||| g2 >>> 64
  (out, g1, g2)

/-- Modelled from the spec: the behaviour `m256_shuffle_epi8` is documented
to have (that of `_mm256_shuffle_epi8`): within each 16-byte half, a control
byte with its top bit set (stored byte value at least 128) produces a zero
output byte, and otherwise the low 4 bits of the control byte (stored byte
value modulo 16) index into the same half of the source. -/
def m256_shuffle_epi8_spec (a b : Nat → Int) : Nat → Int := fun j =>
  let half := 16 * (j / 16)
  let byte := (b j % 256).toNat
  if byte < 128 then a (half + byte % 16) else 0

/-- Specification-side right shift: the lane reinterpreted as an unsigned
16-bit value, divided by `2 ^ imm8` (a logical shift filling with zero
bits), reinterpreted back as signed. -/
def m256_srli_epi16_spec (imm8 : Nat) (a : Nat → Int) : Nat → Int :=
  fun i => wrap16 (a i % 65536 / (2 : Int) ^ imm8)

/-- A 16-lane ramp test vector: lane `i` holds `i`. -/
def rampArr : Nat → Int := fun i => (i : Int)

/-- A test vector with the most negative `int16_t` value in lane 0 and `-5`
elsewhere. -/
def minBoundArr : Nat → Int := fun i => if i = 0 then -32768 else -5

/-- A test vector whose lanes all hold `-1`. -/
def negOneArr : Nat → Int := fun _ => -1

/-- Source array exhibiting the shuffle fallback defect: all 32 bytes are 1. -/
def shuffleBugSrc : Nat → Int := fun _ => 1

/-- Control array exhibiting the shuffle fallback defect: all 32 control
bytes are 0 (top bit clear, index 0), so every output byte should copy
`a[0] = 1`. -/
def shuffleBugCtrl : Nat → Int := fun _ => 0

/-- Control array with every control byte `-128` (`0x80`: top bit set), so
every documented output byte should be zero. -/
def shuffleBugCtrl2 : Nat → Int := fun _ => -128

/-! ### Helper lemmas -/

theorem eqUpTo_iff (a b : Nat → Int) : ∀ n, eqUpTo a b n = true ↔ ∀ i, i < n → a i = b i := by
  intro n
  induction n with
  | zero => simp [eqUpTo]
  | succ n ih =>
    simp only [eqUpTo, Bool.and_eq_true, beq_iff_eq, ih]
    constructor
    · rintro ⟨hn, hrec⟩ i hi
      rcases Nat.lt_succ_iff_lt_or_eq.1 hi with h | rfl
      · exact hrec i h
      · exact hn
    · intro h
      exact ⟨h n (Nat.lt_succ_self n), fun i hi => h i (Nat.lt_succ_of_lt hi)⟩

theorem wrap16_bounds (x : Int) : -32768 ≤ wrap16 x ∧ wrap16 x < 32768 := by
  unfold wrap16; omega

theorem wrap16_of_range (x : Int) (h1 : -32768 ≤ x) (h2 : x < 32768) : wrap16 x = x := by
  unfold wrap16; omega

theorem nat_le_lor (a b : Nat) : a ≤ a ||| b :=
  Nat.le_of_testBit fun i h => by simp [Nat.testBit_or, h]

theorem int_xor_zero (x : Int) : Int.xor x 0 = x := by
  cases x with
  | ofNat n => show Int.ofNat (n ^^^ 0) = Int.ofNat n; rw [Nat.xor_zero]
  | negSucc n => show Int.negSucc (n ^^^ 0) = Int.negSucc n; rw [Nat.xor_zero]

theorem int_xor_neg_one (x : Int) : Int.xor x (-1) = -x - 1 := by
  cases x with
  | ofNat n =>
    show Int.negSucc (n ^^^ 0) = -Int.ofNat n - 1
    rw [Nat.xor_zero, Int.negSucc_eq]
    simp [Int.ofNat_eq_natCast]
    ring
  | negSucc n =>
    show Int.ofNat (n ^^^ 0) = -Int.negSucc n - 1
    rw [Nat.xor_zero, Int.negSucc_eq]
    simp [Int.ofNat_eq_natCast]

theorem int_shiftRight15_of_nonneg (x : Int) (h1 : 0 ≤ x) (h2 : x < 32768) :
    Int.shiftRight x 15 = 0 := by
  obtain ⟨n, rfl⟩ := Int.eq_ofNat_of_zero_le h1
  show Int.ofNat (n >>> 15) = 0
  have hn : n < 32768 := by exact_mod_cast h2
  rw [Nat.shiftRight_eq_div_pow]
  norm_num [Nat.div_eq_of_lt hn]

theorem int_shiftRight15_of_neg (x : Int) (h1 : -32768 ≤ x) (h2 : x < 0) :
    Int.shiftRight x 15 = -1 := by
  obtain ⟨n, rfl⟩ := Int.eq_negSucc_of_lt_zero h2
  show Int.negSucc (n >>> 15) = -1
  rw [Int.negSucc_eq] at h1 ⊢
  have hn : n < 32768 := by omega
  rw [Nat.shiftRight_eq_div_pow]
  rw [Nat.div_eq_of_lt (by norm_num [hn] : n < 2 ^ 15)]
  norm_num

set_option maxRecDepth 4096 in
theorem decode_bits (n : Nat) (hn : n < 256) :
    n &&& 0x03 = n % 4 ∧ (n &&& 0x0C) >>> 2 = n / 4 % 4 ∧
    (n &&& 0x30) >>> 4 = n / 16 % 4 ∧ (n &&& 0xC0) >>> 6 = n / 64 % 4 := by
  revert hn
  revert n
  decide

theorem eqUpTo_false_of_ne (a b : Nat → Int) (n : Nat)
    (hne : ¬ ∀ i, i < n → a i = b i) : eqUpTo a b n = false := by
  rcases Bool.eq_false_or_eq_true (eqUpTo a b n) with h | h
  · exact absurd ((eqUpTo_iff a b n).1 h) hne
  · exact h

/-! ### Claim theorems -/

/-- Claim C9: `m256_add_epi16` and `m256_sub_epi16` compute, per lane,
the sum respectively difference of the two input lanes truncated to 16 bits
exactly as two's-complement wraparound — each output lane is congruent to
the exact sum/difference modulo `2 ^ 16` and lies in the `int16_t` range
(so there is no saturation). -/
theorem c9_add_sub_wraparound (a b : Nat → Int) (i : Nat) (hi : i < 16) :
    (m256_add_epi16 a b i ≡ a i + b i [ZMOD 65536] ∧
      -32768 ≤ m256_add_epi16 a b i ∧ m256_add_epi16 a b i < 32768) ∧
    (m256_sub_epi16 a b i ≡ a i - b i [ZMOD 65536] ∧
      -32768 ≤ m256_sub_epi16 a b i ∧ m256_sub_epi16 a b i < 32768) := by
  unfold m256_add_epi16 m256_sub_epi16 wrap16 Int.ModEq
  omega

/-- Claim C9 witness at the lanes `30000` and `30000` (an overflowing
sum). -/
theorem c9_witness :
    (0 : Nat) < 16 ∧
    ((m256_add_epi16 (fun _ => 30000) (fun _ => 30000) 0 ≡ 30000 + 30000 [ZMOD 65536] ∧
        -32768 ≤ m256_add_epi16 (fun _ => 30000) (fun _ => 30000) 0 ∧
        m256_add_epi16 (fun _ => 30000) (fun _ => 30000) 0 < 32768) ∧
      (m256_sub_epi16 (fun _ => 30000) (fun _ => 30000) 0 ≡ 30000 - 30000 [ZMOD 65536] ∧
        -32768 ≤ m256_sub_epi16 (fun _ => 30000) (fun _ => 30000) 0 ∧
        m256_sub_epi16 (fun _ => 30000) (fun _ => 30000) 0 < 32768)) :=
  ⟨by decide, c9_add_sub_wraparound (fun _ => 30000) (fun _ => 30000) 0 (by decide)⟩

/-- Claim C10: the checked precondition `assert(a != b)` of `m256_or_epi64`,
`m256_and_epi64`, `m256_cmpgt_epi16`, `m256_sign_epi16` and
`m256_shuffle_epi8` is element-wise equality of the two inputs' contents
(`std::array::operator==`), not object identity: the guard rejects the call
exactly when every lane of the two inputs agrees, regardless of how the two
sequences are presented. -/
theorem c10_alias_guard_value_equality (a64 b64 a16 b16 a8 b8 : Nat → Int) :
    (m256_or_epi64 a64 b64 = none ↔ ∀ i, i < 4 → a64 i = b64 i) ∧
    (m256_and_epi64 a64 b64 = none ↔ ∀ i, i < 4 → a64 i = b64 i) ∧
    (m256_cmpgt_epi16 a16 b16 = none ↔ ∀ i, i < 16 → a16 i = b16 i) ∧
    (m256_sign_epi16 a16 b16 = none ↔ ∀ i, i < 16 → a16 i = b16 i) ∧
    (m256_shuffle_epi8 a8 b8 = none ↔ ∀ i, i < 32 → a8 i = b8 i) := by
  have key : ∀ (n : Nat) (a b : Nat → Int) (g : Nat → Int),
      ((if eqUpTo a b n then none else some g) = (none : Option (Nat → Int)) ↔
        ∀ i, i < n → a i = b i) := by
    intro n a b g
    by_cases h : eqUpTo a b n = true
    · rw [if_pos h]
      exact iff_of_true rfl ((eqUpTo_iff a b n).1 h)
    · rw [if_neg h]
      exact iff_of_false (by simp) fun hall => h ((eqUpTo_iff a b n).2 hall)
  unfold m256_or_epi64 m256_and_epi64 m256_cmpgt_epi16 m256_sign_epi16 m256_shuffle_epi8
  exact ⟨key _ _ _ _, key _ _ _ _, key _ _ _ _, key _ _ _ _, key _ _ _ _⟩

/-- Claim C10 witness: two sequences written differently but holding equal
values are rejected by `m256_or_epi64` — the guard looks at contents, not at
how the sequence is formed. -/
theorem c10_witness :
    m256_or_epi64 (fun i => (i : Int) + 1) (fun i => 1 + (i : Int)) = none :=
  (c10_alias_guard_value_equality (fun i => (i : Int) + 1) (fun i => 1 + (i : Int))
      (fun _ => 0) (fun _ => 0) (fun _ => 0) (fun _ => 0)).1.mpr
    (fun i _ => by ring)

/-- Claim C8: for distinct 16-lane inputs, `m256_cmpgt_epi16` returns, per
lane, the all-bits-set 16-bit pattern `0xFFFF` (seen through the unsigned
reinterpretation of the signed lane) when `a[i] > b[i]` in the signed
order, and zero otherwise. -/
theorem c8_cmpgt_mask (a b : Nat → Int)
    (hne : ¬ ∀ i, i < 16 → a i = b i) :
    ∃ c, m256_cmpgt_epi16 a b = some c ∧ ∀ i, i < 16 →
      (b i < a i → c i % 65536 = 0xFFFF) ∧ (¬ b i < a i → c i = 0) := by
  have hb := eqUpTo_false_of_ne a b 16 hne
  refine ⟨fun i => wrap16 ((if b i < a i then 1 else 0) * 0xFFFF),
    by unfold m256_cmpgt_epi16; rw [hb]; rfl, ?_⟩
  intro i hi
  constructor
  · intro hlt
    simp only [if_pos hlt]
    decide
  · intro hge
    simp only [if_neg hge]
    decide

/-- Claim C8 witness: lanes of `a` are the ramp `0..15`, lanes of `b`
are all `-1`. -/
theorem c8_witness :
    (¬ ∀ i, i < 16 → rampArr i = negOneArr i) ∧
    (∃ c, m256_cmpgt_epi16 rampArr negOneArr = some c ∧
      ∀ i, i < 16 →
        (negOneArr i < rampArr i → c i % 65536 = 0xFFFF) ∧
        (¬ negOneArr i < rampArr i → c i = 0)) := by
  have hne : ¬ ∀ i, i < 16 → rampArr i = negOneArr i := by
    intro hall
    have h0 := hall 0 (by norm_num)
    simp [rampArr, negOneArr] at h0
  exact ⟨hne, c8_cmpgt_mask rampArr negOneArr hne⟩

/-- Claim C5: `m256_hadd_epi16` interleaves adjacent-pair sums of `a` and of
`b` per 128-bit block: for block offset `i ∈ {0, 8}` and `j < 4`, output
lane `i+j` is `a[i+2j] + a[i+2j+1]` and output lane `i+4+j` is
`b[i+2j] + b[i+2j+1]`, with 16-bit wraparound. -/
theorem c5_hadd_pairing (a b : Nat → Int) (i j : Nat)
    (hi : i = 0 ∨ i = 8) (hj : j < 4) :
    m256_hadd_epi16 a b (i + j) = wrap16 (a (i + 2 * j) + a (i + 2 * j + 1)) ∧
    m256_hadd_epi16 a b (i + 4 + j) = wrap16 (b (i + 2 * j) + b (i + 2 * j + 1)) := by
  rcases hi with rfl | rfl <;> interval_cases j <;>
    exact ⟨by norm_num [m256_hadd_epi16], by norm_num [m256_hadd_epi16]⟩

/-- Claim C5 witness at block offset 8, pair index 3. -/
theorem c5_witness :
    ((8 : Nat) = 0 ∨ (8 : Nat) = 8) ∧
    (m256_hadd_epi16 (fun i => (i : Int)) (fun i => 100 + (i : Int)) (8 + 3) =
        wrap16 ((fun i => (i : Int)) (8 + 2 * 3) + (fun i => (i : Int)) (8 + 2 * 3 + 1)) ∧
      m256_hadd_epi16 (fun i => (i : Int)) (fun i => 100 + (i : Int)) (8 + 4 + 3) =
        wrap16 ((fun i => (100 : Int) + (i : Int)) (8 + 2 * 3) +
          (fun i => (100 : Int) + (i : Int)) (8 + 2 * 3 + 1))) :=
  ⟨Or.inr rfl, c5_hadd_pairing (fun i => (i : Int)) (fun i => 100 + (i : Int)) 8 3
    (Or.inr rfl) (by decide)⟩

/-- Claim C4: for distinct inputs, `m256_sign_epi16` applies the three-way
rule per lane: `a[i]` when `b[i] > 0`, `0` when `b[i] = 0`, and the
16-bit two's-complement negation of `a[i]` when `b[i] < 0`. -/
theorem c4_sign_three_way (a b : Nat → Int) (ha : In16 a)
    (hne : ¬ ∀ i, i < 16 → a i = b i) :
    ∃ c, m256_sign_epi16 a b = some c ∧ ∀ i, i < 16 →
      c i = if 0 < b i then a i else if b i = 0 then 0 else wrap16 (-a i) := by
  have hb := eqUpTo_false_of_ne a b 16 hne
  refine ⟨fun i => wrap16 (a i * e_sign (b i)),
    by unfold m256_sign_epi16; rw [hb]; rfl, ?_⟩
  intro i hi
  obtain ⟨ha1, ha2⟩ := ha i hi
  rcases lt_trichotomy (b i) 0 with hb1 | hb1 | hb1
  · have e1 : ¬ 0 < b i := by omega
    have e2 : ¬ b i = 0 := by omega
    simp only [e_sign, if_neg e1, if_neg e2, if_pos hb1]
    congr 1
    ring
  · have e1 : ¬ 0 < b i := by omega
    have e3 : ¬ b i < 0 := by omega
    simp only [e_sign, if_neg e1, if_pos hb1, if_neg e3]
    norm_num [wrap16]
  · have e3 : ¬ b i < 0 := by omega
    simp only [e_sign, if_pos hb1, if_neg e3]
    rw [sub_zero, mul_one]
    exact wrap16_of_range _ ha1 ha2

/-- Claim C4 witness: `a` is the ramp `0..15` (all lanes in the `int16_t`
range), `b` is the all-`-1` vector (negation case, distinct from `a`). -/
theorem c4_witness :
    In16 rampArr ∧ (¬ ∀ i, i < 16 → rampArr i = negOneArr i) ∧
    (∃ c, m256_sign_epi16 rampArr negOneArr = some c ∧ ∀ i, i < 16 →
      c i = if 0 < negOneArr i then rampArr i
        else if negOneArr i = 0 then 0 else wrap16 (-rampArr i)) := by
  have hne : ¬ ∀ i, i < 16 → rampArr i = negOneArr i := by
    intro hall
    have h0 := hall 0 (by norm_num)
    simp [rampArr, negOneArr] at h0
  exact ⟨by decide, hne, c4_sign_three_way rampArr negOneArr (by decide) hne⟩

/-- Claim C6: `m256_abs_epi16` returns, per lane, the two's-complement
absolute value: the mathematical absolute value for every lane except
`-32768`, which wraps to `-32768` itself (no trap, no saturation). -/
theorem c6_abs_twos_complement (a : Nat → Int) (ha : In16 a) (i : Nat)
    (hi : i < 16) :
    m256_abs_epi16 a i = if a i = -32768 then -32768 else |a i| := by
  obtain ⟨h1, h2⟩ := ha i hi
  show wrap16 (Int.xor (a i) (wrap16 (Int.shiftRight (a i) 15)) -
    wrap16 (Int.shiftRight (a i) 15)) = _
  rcases le_or_lt 0 (a i) with hpos | hneg
  · rw [int_shiftRight15_of_nonneg (a i) hpos h2,
      show wrap16 0 = 0 from by decide, int_xor_zero, sub_zero,
      wrap16_of_range _ h1 h2, if_neg (by omega), abs_of_nonneg hpos]
  · rw [int_shiftRight15_of_neg (a i) h1 hneg,
      show wrap16 (-1) = -1 from by decide, int_xor_neg_one,
      show -a i - 1 - -1 = -a i from by ring]
    by_cases hmin : a i = -32768
    · rw [if_pos hmin, hmin]
      decide
    · rw [if_neg hmin, abs_of_neg hneg]
      exact wrap16_of_range _ (by omega) (by omega)

/-- Claim C6 witness on a vector containing the boundary value `-32768`
(lane 0) and an ordinary negative value `-5` (other lanes). -/
theorem c6_witness :
    In16 minBoundArr ∧ 0 < 16 ∧
    m256_abs_epi16 minBoundArr 0 =
      if minBoundArr 0 = -32768 then -32768 else |minBoundArr 0| :=
  ⟨by decide, by decide, c6_abs_twos_complement minBoundArr (by decide) 0 (by decide)⟩

/-- Claim C3: `m256_srli_epi16` with shift amount `imm8 ≤ 16` is the
logical (unsigned) right shift: each lane reinterpreted as an unsigned
16-bit value, shifted right with zero bits shifted in, reinterpreted back as
signed; in particular lane value `-1` shifted by 1 gives `0x7FFF = 32767`
(high bit cleared), not a sign-extended value. -/
theorem c3_srli_logical (imm8 : Nat) (a : Nat → Int) (hs : imm8 ≤ 16)
    (ha : In16 a) (i : Nat) (hi : i < 16) :
    m256_srli_epi16 imm8 a i = m256_srli_epi16_spec imm8 a i ∧
    m256_srli_epi16 1 negOneArr i = 32767 := by
  constructor
  · unfold m256_srli_epi16 m256_srli_epi16_spec
    congr 1
    have h0 : (0 : Int) ≤ a i % 65536 := Int.emod_nonneg _ (by norm_num)
    rw [Nat.shiftRight_eq_div_pow, Int.ofNat_eq_natCast, Int.natCast_div]
    push_cast [Int.toNat_of_nonneg h0]
    ring_nf
  · show wrap16 (Int.ofNat ((((-1 : Int)) % 65536).toNat >>> 1)) = 32767
    decide

/-- Claim C3 witness at shift 1 on the all-`-1` vector. -/
theorem c3_witness :
    (1 : Nat) ≤ 16 ∧ In16 negOneArr ∧ (0 : Nat) < 16 ∧
    (m256_srli_epi16 1 negOneArr 0 = m256_srli_epi16_spec 1 negOneArr 0 ∧
      m256_srli_epi16 1 negOneArr 0 = 32767) :=
  ⟨by decide, by decide, by decide,
    c3_srli_logical 1 negOneArr (by decide) (by decide) 0 (by decide)⟩

/-- Claim C7: with the 8-bit selector decoded as four 2-bit fields
`f_k = (imm8 mod 256) / 4^k mod 4`, `m256_permute4x64_epi64` returns
`b[k] = a[f_k]` for every `k < 4`, and `m256_permute4x64_epi16` copies
input group `f_k` (four 16-bit lanes, intra-group order preserved) to
output group `k`: `b[4k+t] = a[4 f_k + t]` for every `k < 4`, `t < 4`. -/
theorem c7_permute_fields (imm8 : Int) (a64 a16 : Nat → Int)
    (h1 : -128 ≤ imm8) (h2 : imm8 < 128) (k t : Nat) (hk : k < 4) (ht : t < 4) :
    m256_permute4x64_epi64 imm8 a64 k = a64 (selByte imm8 / 4 ^ k % 4) ∧
    m256_permute4x64_epi16 imm8 a16 (4 * k + t) =
      a16 (4 * (selByte imm8 / 4 ^ k % 4) + t) := by
  have hn : selByte imm8 < 256 := by unfold selByte; omega
  obtain ⟨d0, d1, d2, d3⟩ := decode_bits (selByte imm8) hn
  unfold m256_permute4x64_epi64 m256_permute4x64_epi16
  interval_cases k <;> interval_cases t <;>
    constructor <;> norm_num [d0, d1, d2, d3]

/-- Claim C7 witness: selector `0b00011011 = 27` (full reversal) applied to
ramp vectors, checked at group `k = 0`, sub-lane `t = 0`. -/
theorem c7_witness :
    -128 ≤ (27 : Int) ∧ (27 : Int) < 128 ∧ (0 : Nat) < 4 ∧ (0 : Nat) < 4 ∧
    (m256_permute4x64_epi64 27 rampArr 0 = rampArr (selByte 27 / 4 ^ 0 % 4) ∧
      m256_permute4x64_epi16 27 rampArr (4 * 0 + 0) =
        rampArr (4 * (selByte 27 / 4 ^ 0 % 4) + 0)) :=
  ⟨by decide, by decide, by decide, by decide,
    c7_permute_fields 27 rampArr rampArr (by decide) (by decide) 0 0
      (by decide) (by decide)⟩

/-- Claim C2 counterexample: with both accumulators zero — a legal pair of
128-bit accumulator states — `get_randomness` returns `0`, which is equal to
both input accumulators, so the universally quantified claim
`result != stateA ∧ result != stateB` fails at this input. -/
theorem c2_counterexample_zero_state : (get_randomness 0 0).1 = 0 := by decide

/-- Claim C2 (amended): whenever the first accumulator is nonzero and both
accumulators fit in 64 bits — as in the repository's test, which seeds both
states from `rand()` — a single call to `get_randomness` returns a value
that differs from each of the two input accumulators. -/
theorem c2_randomness_ne_state (g1 g2 : Nat) (h0 : 0 < g1)
    (h1 : g1 < 2 ^ 64) (h2 : g2 < 2 ^ 64) :
    (get_randomness g1 g2).1 ≠ g1 ∧ (get_randomness g1 g2).1 ≠ g2 := by
  have hfst : (get_randomness g1 g2).1 =
      (g1 * lehmer_k % 2 ^ 128) <<< 64 % 2 ^ 128 ||| (g2 * lehmer_k % 2 ^ 128) >>> 64 := rfl
  have e1 : (g1 * lehmer_k % 2 ^ 128) <<< 64 % 2 ^ 128 =
      g1 * lehmer_k % 2 ^ 128 % 2 ^ 64 * 2 ^ 64 := by
    rw [Nat.shiftLeft_eq, show (2 : Nat) ^ 128 = 2 ^ 64 * 2 ^ 64 from by norm_num,
      Nat.mul_mod_mul_right]
  have e2 : g1 * lehmer_k % 2 ^ 128 % 2 ^ 64 = g1 * lehmer_k % 2 ^ 64 :=
    Nat.mod_mod_of_dvd _ ⟨2 ^ 64, by norm_num⟩
  have e3 : g1 * lehmer_k % 2 ^ 64 ≠ 0 := by
    intro hz
    have hdvd : 2 ^ 64 ∣ g1 * lehmer_k := Nat.dvd_of_mod_eq_zero hz
    have hcop : Nat.Coprime (2 ^ 64) lehmer_k := by
      apply Nat.Coprime.pow_left
      rw [Nat.prime_two.coprime_iff_not_dvd]
      unfold lehmer_k
      omega
    have hdg : 2 ^ 64 ∣ g1 := hcop.dvd_of_dvd_mul_right hdvd
    have := Nat.le_of_dvd h0 hdg
    omega
  have hge : 2 ^ 64 ≤ (get_randomness g1 g2).1 := by
    rw [hfst]
    calc (2 : Nat) ^ 64 = 1 * 2 ^ 64 := by ring
    _ ≤ g1 * lehmer_k % 2 ^ 128 % 2 ^ 64 * 2 ^ 64 := by
        rw [e2]
        exact Nat.mul_le_mul_right _ (by omega)
    _ = (g1 * lehmer_k % 2 ^ 128) <<< 64 % 2 ^ 128 := e1.symm
    _ ≤ _ := nat_le_lor _ _
  constructor <;> omega

/-- Claim C2 witness at the state pair `(1, 2)`. -/
theorem c2_witness :
    0 < 1 ∧ (1 : Nat) < 2 ^ 64 ∧ (2 : Nat) < 2 ^ 64 ∧
    ((get_randomness 1 2).1 ≠ 1 ∧ (get_randomness 1 2).1 ≠ 2) :=
  ⟨by decide, by decide, by decide,
    c2_randomness_ne_state 1 2 (by decide) (by decide) (by decide)⟩

/-- Claim C1: the portable fallback of `m256_shuffle_epi8` does not
implement the documented `_mm256_shuffle_epi8` semantics.  With source bytes
all `1` and control bytes all `0` (top bit clear, low four bits select index
0 of the lower half), the documented behaviour yields output byte
`a[0] = 1`, but the fallback computes
`c[0] = int8_t(int16_t(~0u) * a[0]) = -1`: the multiplier `int16_t(~flag)`
is `-1` (and `-129` when the top bit is set) instead of the intended `1`
(respectively `0`) mask. -/
theorem c1_shuffle_fallback_defect :
    (m256_shuffle_epi8 shuffleBugSrc shuffleBugCtrl).map (fun c => c 0) = some (-1) ∧
    m256_shuffle_epi8_spec shuffleBugSrc shuffleBugCtrl 0 = 1 ∧
    (m256_shuffle_epi8 shuffleBugSrc shuffleBugCtrl2).map (fun c => c 0) = some 127 ∧
    m256_shuffle_epi8_spec shuffleBugSrc shuffleBugCtrl2 0 = 0 := by
  refine ⟨?_, by decide, ?_, by decide⟩ <;> decide

end CPPIntrin
